import Mathlib

/-!
Verification of the presentation lifecycle of MdKeyboardContainerComponent
(src/src/keyboard-container.component.ts).

The component is embedded as a pure state record together with a step
function over an explicit trace of operations.  The embedding follows the
TypeScript source line by line:

* KeyboardState is the string union type of the source.
* Subject models an rxjs Subject restricted to what the component uses:
  nextends are counted, and after complete() the subject is stopped, so a
  later next() delivers nothing (rxjs semantics for a stopped subject).
* enterSubs records, for each subscriber of the onEnter subject, how many
  notifications that subscriber has received: the next emission for a
  subscriber present when the subject fires, or the immediate completion
  notification for a subscriber arriving after the subject completed.
* pendingExits counts the live onMicrotaskEmpty.first() subscriptions made
  by completeExit; the drain operation models NgZone emitting
  onMicrotaskEmpty, which runs every pending callback
  (onExit.next(); onExit.complete()) and clears them.
* attachComponentPortal returns an outcome next to the new state: ok with
  the component ref, the MdKeyboardContentAlreadyAttached error, the
  TypeError raised when keyboardConfig is still undefined, or the
  Not yet implemented error of attachTemplatePortal.
-/

/-- The animation state union type of the source. -/
inductive KeyboardState
  | initial
  | visible
  | complete
  | void
deriving DecidableEq, Repr

/-- An rxjs Subject as used by the component: a count of delivered next
emissions and a stopped flag set by complete. -/
structure Subject where
  nextCount : Nat
  stopped : Bool
deriving DecidableEq, Repr

/-- Model of Subject.next: delivers one emission unless the subject is
already stopped, in which case it is a no-op. -/
def Subject.next (s : Subject) : Subject :=
  if s.stopped then s else { s with nextCount := s.nextCount + 1 }

/-- Model of Subject.complete: marks the subject stopped. -/
def Subject.complete (s : Subject) : Subject :=
  { s with stopped := true }

/-- Runs next-then-complete k times, one round per pending
onMicrotaskEmpty.first() callback. -/
def Subject.fireTimes (s : Subject) : Nat → Subject
  | 0 => s
  | n + 1 => (s.next.complete).fireTimes n

/-- The portal host directive holding at most one attached portal,
identified by a plain Nat. -/
structure PortalHost where
  attached : Option Nat
deriving DecidableEq, Repr

/-- Model of BasePortalHost.hasAttached. -/
def PortalHost.hasAttached (h : PortalHost) : Bool :=
  h.attached.isSome

/-- The part of MdKeyboardConfig read by the component: the optional
extraClasses array. -/
structure MdKeyboardConfig where
  extraClasses : Option (List String)
deriving DecidableEq, Repr

/-- The state of one MdKeyboardContainerComponent instance. -/
structure Container where
  animationState : KeyboardState
  attrRole : String
  animState : String
  onEnter : Subject
  onExit : Subject
  enterSubs : List Nat
  pendingExits : Nat
  portalHost : PortalHost
  keyboardConfig : Option MdKeyboardConfig
  hostClasses : List String
deriving DecidableEq, Repr

/-- The freshly constructed component: animationState is initial, both
subjects are fresh, nothing is attached and keyboardConfig is unset. -/
def initContainer : Container :=
  { animationState := KeyboardState.initial
    attrRole := "alert"
    animState := "alert"
    onEnter := { nextCount := 0, stopped := false }
    onExit := { nextCount := 0, stopped := false }
    enterSubs := []
    pendingExits := 0
    portalHost := { attached := none }
    keyboardConfig := none
    hostClasses := [] }

/-- Outcome of an attach call: success with the component ref, the
MdKeyboardContentAlreadyAttached error, the TypeError hit when
keyboardConfig is undefined, or the Not yet implemented error. -/
inductive AttachOutcome
  | ok (ref : Nat)
  | alreadyAttached
  | configFault
  | notImplemented
deriving DecidableEq, Repr

/-- Source method attachComponentPortal: throws
MdKeyboardContentAlreadyAttached when the portal host has content, reads
keyboardConfig.extraClasses (faulting when keyboardConfig is undefined),
adds each extra class to the host element, then delegates to the portal
host and returns the component ref. -/
def Container.attachComponentPortal (c : Container) (portal : Nat) :
    AttachOutcome × Container :=
  if c.portalHost.hasAttached then
    (AttachOutcome.alreadyAttached, c)
  else
    match c.keyboardConfig with
    | none => (AttachOutcome.configFault, c)
    | some cfg =>
      let c1 :=
        match cfg.extraClasses with
        | some classes => { c with hostClasses := c.hostClasses ++ classes }
        | none => c
      (AttachOutcome.ok portal, { c1 with portalHost := { attached := some portal } })

/-- Source method attachTemplatePortal: always throws Not yet implemented
and changes nothing. -/
def Container.attachTemplatePortal (c : Container) : AttachOutcome × Container :=
  (AttachOutcome.notImplemented, c)

/-- Source method enter: sets the animation state to visible. -/
def Container.enter (c : Container) : Container :=
  { c with animationState := KeyboardState.visible }

/-- Source method _onEnter: sets the animation state to visible and returns
the onEnter observable; only the state write is visible here. -/
def Container.onEnterMethod (c : Container) : Container :=
  { c with animationState := KeyboardState.visible }

/-- Source method exit: sets the animation state to complete and returns
the onExit observable. -/
def Container.exitMethod (c : Container) : Container :=
  { c with animationState := KeyboardState.complete }

/-- Source method _completeExit: subscribes a fresh callback to
onMicrotaskEmpty.first(); the callback runs at the next drain. -/
def Container.completeExit (c : Container) : Container :=
  { c with pendingExits := c.pendingExits + 1 }

/-- Source method ngOnDestroy: calls _completeExit. -/
def Container.ngOnDestroy (c : Container) : Container :=
  c.completeExit

/-- Source method onAnimationEnd: on a transition into void or complete it
calls _completeExit; on a transition into visible it runs onEnter.next()
then onEnter.complete(), which notifies the current subscribers exactly
when the subject is not yet stopped.  The didFinish flag of the event is
never read. -/
def Container.onAnimationEnd (c : Container) (fromState toState : KeyboardState)
    (didFinish : Bool) : Container :=
  let c1 :=
    if toState = KeyboardState.void ∨ toState = KeyboardState.complete then
      c.completeExit
    else c
  if toState = KeyboardState.visible then
    { c1 with
      onEnter := c1.onEnter.next.complete
      enterSubs :=
        if c1.onEnter.stopped then c1.enterSubs
        else c1.enterSubs.map (fun k => k + 1) }
  else c1

/-- A new subscription to the onEnter subject: a subscriber arriving after
the subject completed is notified immediately, one arriving before waits. -/
def Container.subscribeEnter (c : Container) : Container :=
  { c with enterSubs := c.enterSubs ++ [if c.onEnter.stopped then 1 else 0] }

/-- NgZone emits onMicrotaskEmpty: every pending first() callback runs
onExit.next() then onExit.complete(), and all of them are cleared. -/
def Container.drainMicrotasks (c : Container) : Container :=
  { c with onExit := c.onExit.fireTimes c.pendingExits, pendingExits := 0 }

/-- One operation on a container instance: a public method call, an
animation completion event from the engine, a zone microtask drain, a
subscription, or the external assignment of keyboardConfig. -/
inductive Op
  | enter
  | onEnterAcc
  | exit
  | subscribeEnter
  | destroy
  | animationEnd (fromState toState : KeyboardState) (didFinish : Bool)
  | drain
  | setConfig (extraClasses : Option (List String))
  | attach (portal : Nat)
  | attachTemplate
deriving DecidableEq, Repr

/-- The step function dispatching one operation to the source method it
names; a thrown attach error leaves the state as it was at the throw. -/
def Container.stepC (c : Container) : Op → Container
  | Op.enter => c.enter
  | Op.onEnterAcc => c.onEnterMethod
  | Op.exit => c.exitMethod
  | Op.subscribeEnter => c.subscribeEnter
  | Op.destroy => c.ngOnDestroy
  | Op.animationEnd f t d => c.onAnimationEnd f t d
  | Op.drain => c.drainMicrotasks
  | Op.setConfig ec => { c with keyboardConfig := some { extraClasses := ec } }
  | Op.attach p => (c.attachComponentPortal p).2
  | Op.attachTemplate => (c.attachTemplatePortal).2

/-- Runs a trace of operations from a given state. -/
def runFrom (c : Container) (t : List Op) : Container :=
  t.foldl Container.stepC c

/-- Runs a trace of operations from the freshly constructed component. -/
def runOps (t : List Op) : Container :=
  runFrom initContainer t

/-- True for the operations whose handling calls _completeExit: ngOnDestroy,
and an animation end event into void or complete. -/
def triggersExit : Op → Bool
  | Op.destroy => true
  | Op.animationEnd _ t _ =>
    decide (t = KeyboardState.void ∨ t = KeyboardState.complete)
  | _ => false

/-- True exactly for the drain operation. -/
def isDrain : Op → Bool
  | Op.drain => true
  | _ => false

/-- True exactly for the enter operation. -/
def isEnterOp : Op → Bool
  | Op.enter => true
  | _ => false

/-- True exactly for the _onEnter accessor operation. -/
def isOnEnterAccOp : Op → Bool
  | Op.onEnterAcc => true
  | _ => false

/-- True exactly for the exit operation. -/
def isExitOp : Op → Bool
  | Op.exit => true
  | _ => false

/-- Whether some operation of the trace satisfies the predicate. -/
def hasOp (p : Op → Bool) : List Op → Bool
  | [] => false
  | op :: rest => p op || hasOp p rest

/-- Whether the onExit subject fires on the trace: some _completeExit
trigger is followed, later in the trace, by a microtask drain. -/
def exitFires : List Op → Bool
  | [] => false
  | op :: rest => if triggersExit op then hasOp isDrain rest else exitFires rest

/-- Well-formedness of a trace: the animation engine only reports a
transition into the state the component requested, or into void when the
element is removed from the DOM. -/
def wfFrom (c : Container) : List Op → Bool
  | [] => true
  | op :: rest =>
    (match op with
     | Op.animationEnd _ t _ =>
       decide (t = c.animationState ∨ t = KeyboardState.void)
     | _ => true) && wfFrom (c.stepC op) rest

/-- Whether an attach outcome is a success. -/
def AttachOutcome.isOk : AttachOutcome → Bool
  | AttachOutcome.ok _ => true
  | _ => false

/-- Number of attach calls in the trace that return a component ref rather
than throwing. -/
def countAttachSuccesses (c : Container) : List Op → Nat
  | [] => 0
  | Op.attach p :: rest =>
    (if (c.attachComponentPortal p).1.isOk then 1 else 0) +
      countAttachSuccesses (c.stepC (Op.attach p)) rest
  | op :: rest => countAttachSuccesses (c.stepC op) rest

/-- A stopped subject absorbs next. -/
theorem Subject.next_of_stopped (s : Subject) (h : s.stopped = true) :
    s.next = s := by
  simp [Subject.next, h]

/-- A stopped subject absorbs complete. -/
theorem Subject.complete_of_stopped (s : Subject) (h : s.stopped = true) :
    s.complete = s := by
  cases s
  simp_all [Subject.complete]

/-- A stopped subject absorbs any number of fire rounds. -/
theorem Subject.fireTimes_of_stopped (s : Subject) (h : s.stopped = true) :
    ∀ k, s.fireTimes k = s := by
  intro k
  induction k with
  | zero => rfl
  | succ n ih =>
    show (s.next.complete).fireTimes n = s
    rw [Subject.next_of_stopped s h, Subject.complete_of_stopped s h, ih]

/-- Firing a not yet stopped subject at least once delivers exactly one
next emission and stops it. -/
theorem Subject.fireTimes_of_live (s : Subject) (h : s.stopped = false) :
    ∀ k, (s.fireTimes (k + 1)).nextCount = s.nextCount + 1 ∧
      (s.fireTimes (k + 1)).stopped = true := by
  intro k
  have hnext : s.next = { nextCount := s.nextCount + 1, stopped := false } := by
    cases s
    simp_all [Subject.next]
  have hfire : s.next.complete =
      { nextCount := s.nextCount + 1, stopped := true } := by
    rw [hnext]; rfl
  show ((s.next.complete).fireTimes k).nextCount = s.nextCount + 1 ∧
    ((s.next.complete).fireTimes k).stopped = true
  rw [hfire, Subject.fireTimes_of_stopped _ rfl k]
  exact ⟨rfl, rfl⟩

/-- The subject invariant maintained by the component: at most one next
emission ever happens, and the subject is stopped exactly when it has
emitted. -/
def SInv (s : Subject) : Prop :=
  s.nextCount ≤ 1 ∧ (s.stopped = true ↔ s.nextCount = 1)

/-- The fresh subjects of the component satisfy the invariant. -/
theorem SInv_fresh : SInv { nextCount := 0, stopped := false } := by
  constructor
  · decide
  · constructor <;> intro h <;> simp_all

/-- Fire rounds preserve the subject invariant. -/
theorem SInv_fireTimes (s : Subject) (k : Nat) (h : SInv s) :
    SInv (s.fireTimes k) := by
  cases k with
  | zero => exact h
  | succ n =>
    cases hs : s.stopped with
    | true => rw [Subject.fireTimes_of_stopped s hs]; exact h
    | false =>
      have hcount : s.nextCount = 0 := by
        rcases h with ⟨hle, hiff⟩
        rcases Nat.lt_or_ge s.nextCount 1 with h1 | h1
        · omega
        · exfalso
          have : s.nextCount = 1 := by omega
          have := hiff.mpr this
          simp [hs] at this
      rcases Subject.fireTimes_of_live s hs n with ⟨h1, h2⟩
      constructor
      · omega
      · rw [h2, h1, hcount]
        simp

/-- On a subject satisfying the invariant, the count after the fire rounds
of one drain is one exactly when it already was one or a round ran. -/
theorem fireTimes_count_one (s : Subject) (k : Nat) (h : SInv s) :
    (s.fireTimes k).nextCount = 1 ↔ (s.nextCount = 1 ∨ k ≠ 0) := by
  cases k with
  | zero =>
    show s.nextCount = 1 ↔ (s.nextCount = 1 ∨ (0 : Nat) ≠ 0)
    simp
  | succ n =>
    cases hs : s.stopped with
    | true =>
      have hone : s.nextCount = 1 := h.2.mp hs
      rw [Subject.fireTimes_of_stopped s hs]
      simp [hone]
    | false =>
      have hcount : s.nextCount = 0 := by
        rcases h with ⟨hle, hiff⟩
        by_contra hne
        have : s.nextCount = 1 := by omega
        have := hiff.mpr this
        simp [hs] at this
      rcases Subject.fireTimes_of_live s hs n with ⟨h1, h2⟩
      rw [h1, hcount]
      simp

/-- Fields of the container that attachComponentPortal never touches,
whichever branch it takes. -/
theorem attachComponentPortal_frame (c : Container) (p : Nat) :
    ((c.attachComponentPortal p).2).animationState = c.animationState ∧
    ((c.attachComponentPortal p).2).onEnter = c.onEnter ∧
    ((c.attachComponentPortal p).2).onExit = c.onExit ∧
    ((c.attachComponentPortal p).2).enterSubs = c.enterSubs ∧
    ((c.attachComponentPortal p).2).pendingExits = c.pendingExits := by
  unfold Container.attachComponentPortal
  split
  · exact ⟨rfl, rfl, rfl, rfl, rfl⟩
  · cases hc : c.keyboardConfig with
    | none => simp [hc]
    | some cfg =>
      cases hec : cfg.extraClasses with
      | none => simp [hc, hec]
      | some classes => simp [hc, hec]

/-- Every operation either leaves onExit and pendingExits alone, schedules
one more exit completion, or drains: the exhaustive effect of one step on
the exit side of the state. -/
theorem stepC_exit_effect (c : Container) (op : Op) :
    (triggersExit op = false ∧ isDrain op = false ∧
      (c.stepC op).onExit = c.onExit ∧
      (c.stepC op).pendingExits = c.pendingExits) ∨
    (triggersExit op = true ∧ isDrain op = false ∧
      (c.stepC op).onExit = c.onExit ∧
      (c.stepC op).pendingExits = c.pendingExits + 1) ∨
    (triggersExit op = false ∧ isDrain op = true ∧
      (c.stepC op).onExit = c.onExit.fireTimes c.pendingExits ∧
      (c.stepC op).pendingExits = 0) := by
  cases op with
  | enter => exact Or.inl ⟨rfl, rfl, rfl, rfl⟩
  | onEnterAcc => exact Or.inl ⟨rfl, rfl, rfl, rfl⟩
  | exit => exact Or.inl ⟨rfl, rfl, rfl, rfl⟩
  | subscribeEnter => exact Or.inl ⟨rfl, rfl, rfl, rfl⟩
  | destroy => exact Or.inr (Or.inl ⟨rfl, rfl, rfl, rfl⟩)
  | drain => exact Or.inr (Or.inr ⟨rfl, rfl, rfl, rfl⟩)
  | setConfig ec => exact Or.inl ⟨rfl, rfl, rfl, rfl⟩
  | attachTemplate => exact Or.inl ⟨rfl, rfl, rfl, rfl⟩
  | attach p =>
    rcases attachComponentPortal_frame c p with ⟨_, _, h3, _, h5⟩
    exact Or.inl ⟨rfl, rfl, h3, h5⟩
  | animationEnd f t d =>
    cases t with
    | initial =>
      refine Or.inl ⟨by simp [triggersExit], rfl, ?_, ?_⟩ <;>
        simp [Container.stepC, Container.onAnimationEnd]
    | visible =>
      refine Or.inl ⟨by simp [triggersExit], rfl, ?_, ?_⟩ <;>
        simp [Container.stepC, Container.onAnimationEnd]
    | complete =>
      refine Or.inr (Or.inl ⟨by simp [triggersExit], rfl, ?_, ?_⟩) <;>
        simp [Container.stepC, Container.onAnimationEnd, Container.completeExit]
    | void =>
      refine Or.inr (Or.inl ⟨by simp [triggersExit], rfl, ?_, ?_⟩) <;>
        simp [Container.stepC, Container.onAnimationEnd, Container.completeExit]

/-- Every operation either leaves the onEnter subject and its subscribers
alone, adds one subscriber, or runs the visible completion branch: the
exhaustive effect of one step on the enter side of the state. -/
theorem stepC_enter_effect (c : Container) (op : Op) :
    ((c.stepC op).onEnter = c.onEnter ∧
      (c.stepC op).enterSubs = c.enterSubs) ∨
    ((c.stepC op).onEnter = c.onEnter ∧
      (c.stepC op).enterSubs =
        c.enterSubs ++ [if c.onEnter.stopped then 1 else 0]) ∨
    ((c.stepC op).onEnter = c.onEnter.next.complete ∧
      (c.stepC op).enterSubs =
        (if c.onEnter.stopped then c.enterSubs
         else c.enterSubs.map (fun k => k + 1))) := by
  cases op with
  | enter => exact Or.inl ⟨rfl, rfl⟩
  | onEnterAcc => exact Or.inl ⟨rfl, rfl⟩
  | exit => exact Or.inl ⟨rfl, rfl⟩
  | subscribeEnter => exact Or.inr (Or.inl ⟨rfl, rfl⟩)
  | destroy => exact Or.inl ⟨rfl, rfl⟩
  | drain => exact Or.inl ⟨rfl, rfl⟩
  | setConfig ec => exact Or.inl ⟨rfl, rfl⟩
  | attachTemplate => exact Or.inl ⟨rfl, rfl⟩
  | attach p =>
    rcases attachComponentPortal_frame c p with ⟨_, h2, _, h4, _⟩
    exact Or.inl ⟨h2, h4⟩
  | animationEnd f t d =>
    cases t with
    | initial =>
      refine Or.inl ⟨?_, ?_⟩ <;> simp [Container.stepC, Container.onAnimationEnd]
    | visible =>
      refine Or.inr (Or.inr ⟨?_, ?_⟩) <;>
        simp [Container.stepC, Container.onAnimationEnd]
    | complete =>
      refine Or.inl ⟨?_, ?_⟩ <;>
        simp [Container.stepC, Container.onAnimationEnd, Container.completeExit]
    | void =>
      refine Or.inl ⟨?_, ?_⟩ <;>
        simp [Container.stepC, Container.onAnimationEnd, Container.completeExit]

/-- hasOp distributes over list append. -/
theorem hasOp_append (p : Op → Bool) (a b : List Op) :
    hasOp p (a ++ b) = (hasOp p a || hasOp p b) := by
  induction a with
  | nil => simp [hasOp]
  | cons x a ih => simp [hasOp, ih, Bool.or_assoc]

/-- A trace on which the exit side fires contains a drain. -/
theorem exitFires_imp_hasDrain (t : List Op) (h : exitFires t = true) :
    hasOp isDrain t = true := by
  induction t with
  | nil => simp [exitFires] at h
  | cons op rest ih =>
    by_cases htr : triggersExit op = true
    · rw [exitFires, if_pos htr] at h
      simp [hasOp, h]
    · rw [exitFires, if_neg htr] at h
      simp [hasOp, ih h]

/-- One step preserves the invariant of the onExit subject. -/
theorem stepC_SInv_exit (c : Container) (op : Op) (h : SInv c.onExit) :
    SInv (c.stepC op).onExit := by
  rcases stepC_exit_effect c op with ⟨_, _, he, _⟩ | ⟨_, _, he, _⟩ | ⟨_, _, he, _⟩
  · rw [he]; exact h
  · rw [he]; exact h
  · rw [he]; exact SInv_fireTimes _ _ h

/-- Running a trace preserves the invariant of the onExit subject. -/
theorem runFrom_SInv_exit (t : List Op) :
    ∀ c : Container, SInv c.onExit → SInv (runFrom c t).onExit := by
  induction t with
  | nil => intro c h; exact h
  | cons op rest ih =>
    intro c h
    exact ih (c.stepC op) (stepC_SInv_exit c op h)

/-- Exact characterization of when the onExit subject has emitted after a
trace: it had already emitted, or a pending completion met a drain, or a
trigger of the trace was followed by a drain of the trace. -/
theorem runFrom_exit_count (t : List Op) :
    ∀ c : Container, SInv c.onExit →
      ((runFrom c t).onExit.nextCount = 1 ↔
        (c.onExit.nextCount = 1 ∨
          (c.pendingExits ≠ 0 ∧ hasOp isDrain t = true) ∨
          exitFires t = true)) := by
  induction t with
  | nil =>
    intro c _
    simp [runFrom, hasOp, exitFires]
  | cons op rest ih =>
    intro c hInv
    have hrun : runFrom c (op :: rest) = runFrom (c.stepC op) rest := rfl
    rw [hrun, ih (c.stepC op) (stepC_SInv_exit c op hInv)]
    rcases stepC_exit_effect c op with ⟨ht, hd, he, hp⟩ | ⟨ht, hd, he, hp⟩ |
      ⟨ht, hd, he, hp⟩
    · rw [he, hp, exitFires, if_neg (by simp [ht])]
      have hdr : hasOp isDrain (op :: rest) = hasOp isDrain rest := by
        simp [hasOp, hd]
      rw [hdr]
    · rw [he, hp, exitFires, if_pos ht]
      have hdr : hasOp isDrain (op :: rest) = hasOp isDrain rest := by
        simp [hasOp, hd]
      rw [hdr]
      constructor
      · rintro (h | ⟨_, h2⟩ | hf)
        · exact Or.inl h
        · exact Or.inr (Or.inr h2)
        · exact Or.inr (Or.inr (exitFires_imp_hasDrain rest hf))
      · rintro (h | ⟨_, h2⟩ | h2)
        · exact Or.inl h
        · exact Or.inr (Or.inl ⟨Nat.succ_ne_zero _, h2⟩)
        · exact Or.inr (Or.inl ⟨Nat.succ_ne_zero _, h2⟩)
    · rw [he, hp, exitFires, if_neg (by simp [ht])]
      have hdr : hasOp isDrain (op :: rest) = true := by
        simp [hasOp, hd]
      rw [hdr, fireTimes_count_one _ _ hInv]
      constructor
      · rintro (⟨h | h⟩ | ⟨h0, _⟩ | hf)
        · exact Or.inl h
        · exact Or.inr (Or.inl ⟨h, rfl⟩)
        · exact absurd rfl h0
        · exact Or.inr (Or.inr hf)
      · rintro (h | ⟨h2, _⟩ | hf)
        · exact Or.inl (Or.inl h)
        · exact Or.inl (Or.inr h2)
        · exact Or.inr (Or.inr hf)

/-- The enter-side invariant: the onEnter subject satisfies the subject
invariant, and every subscriber has been notified once when the subject
has completed and not at all before. -/
def EnterInv (c : Container) : Prop :=
  SInv c.onEnter ∧
    ∀ k ∈ c.enterSubs, k = (if c.onEnter.stopped then 1 else 0)

/-- One step preserves the enter-side invariant. -/
theorem stepC_EnterInv (c : Container) (op : Op) (h : EnterInv c) :
    EnterInv (c.stepC op) := by
  rcases h with ⟨hs, hsubs⟩
  rcases stepC_enter_effect c op with ⟨he, hl⟩ | ⟨he, hl⟩ | ⟨he, hl⟩
  · rw [EnterInv, he, hl]; exact ⟨hs, hsubs⟩
  · rw [EnterInv, he, hl]
    refine ⟨hs, ?_⟩
    intro k hk
    rcases List.mem_append.mp hk with hk | hk
    · exact hsubs k hk
    · simpa using hk
  · cases hstop : c.onEnter.stopped with
    | true =>
      have heq : c.onEnter.next.complete = c.onEnter := by
        rw [Subject.next_of_stopped _ hstop, Subject.complete_of_stopped _ hstop]
      rw [EnterInv, he, hl, heq, if_pos hstop]
      refine ⟨hs, ?_⟩
      intro k hk
      rw [if_pos hstop]
      have := hsubs k hk
      rwa [if_pos hstop] at this
    | false =>
      have hcount : c.onEnter.nextCount = 0 := by
        rcases hs with ⟨hle, hiff⟩
        by_contra hne
        have h1 : c.onEnter.nextCount = 1 := by omega
        have := hiff.mpr h1
        simp [hstop] at this
      have heq : c.onEnter.next.complete =
          { nextCount := c.onEnter.nextCount + 1, stopped := true } := by
        have hn : c.onEnter.next =
            { nextCount := c.onEnter.nextCount + 1, stopped := false } := by
          cases hsub : c.onEnter
          simp_all [Subject.next]
        rw [hn]; rfl
      rw [EnterInv, he, hl, heq, if_neg (by simp [hstop])]
      constructor
      · constructor
        · simp [hcount]
        · simp [hcount]
      · intro k hk
        rcases List.mem_map.mp hk with ⟨j, hj, hjk⟩
        have := hsubs j hj
        rw [if_neg (by simp [hstop])] at this
        simp
        omega

/-- Running a trace preserves the enter-side invariant. -/
theorem runFrom_EnterInv (t : List Op) :
    ∀ c : Container, EnterInv c → EnterInv (runFrom c t) := by
  induction t with
  | nil => intro c h; exact h
  | cons op rest ih =>
    intro c h
    exact ih (c.stepC op) (stepC_EnterInv c op h)

/-- The fresh container satisfies the enter-side invariant. -/
theorem EnterInv_init : EnterInv initContainer := by
  constructor
  · exact SInv_fresh
  · intro k hk
    simp [initContainer] at hk

/-- The exit side fires on any trace holding a trigger followed by a
later drain. -/
theorem exitFires_of_split (a b : List Op) (op : Op)
    (hop : triggersExit op = true) (hb : hasOp isDrain b = true) :
    exitFires (a ++ op :: b) = true := by
  induction a with
  | nil => rw [List.nil_append, exitFires, if_pos hop]; exact hb
  | cons x a ih =>
    by_cases hx : triggersExit x = true
    · rw [List.cons_append, exitFires, if_pos hx, hasOp_append]
      have : hasOp isDrain (op :: b) = true := by simp [hasOp, hb]
      simp [this]
    · rw [List.cons_append, exitFires, if_neg hx]
      exact ih

/-- The animation end handler never writes the animation state. -/
theorem onAnimationEnd_state (c : Container) (f s : KeyboardState) (d : Bool) :
    (c.onAnimationEnd f s d).animationState = c.animationState := by
  cases s <;> simp [Container.onAnimationEnd, Container.completeExit]

/-- On a well-formed trace holding neither an enter call nor an _onEnter
call, started in a state other than visible, the onEnter subject is never
touched: the engine can never report a transition into visible. -/
theorem noEnter_onEnter_frame (t : List Op) :
    ∀ c : Container, wfFrom c t = true →
      hasOp isEnterOp t = false → hasOp isOnEnterAccOp t = false →
      c.animationState ≠ KeyboardState.visible →
      (runFrom c t).onEnter = c.onEnter := by
  induction t with
  | nil => intro c _ _ _ _; rfl
  | cons op rest ih =>
    intro c hwf hen hacc hst
    simp only [hasOp, Bool.or_eq_false_iff] at hen hacc
    simp only [wfFrom, Bool.and_eq_true] at hwf
    have hrun : runFrom c (op :: rest) = runFrom (c.stepC op) rest := rfl
    cases op with
    | enter => simp [isEnterOp] at hen
    | onEnterAcc => simp [isOnEnterAccOp] at hacc
    | exit =>
      rw [hrun, ih (c.stepC Op.exit) hwf.2 hen.2 hacc.2
        (by simp [Container.stepC, Container.exitMethod])]
      rfl
    | subscribeEnter =>
      rw [hrun, ih (c.stepC Op.subscribeEnter) hwf.2 hen.2 hacc.2
        (by simpa [Container.stepC, Container.subscribeEnter] using hst)]
      rfl
    | destroy =>
      rw [hrun, ih (c.stepC Op.destroy) hwf.2 hen.2 hacc.2
        (by simpa [Container.stepC, Container.ngOnDestroy,
          Container.completeExit] using hst)]
      rfl
    | drain =>
      rw [hrun, ih (c.stepC Op.drain) hwf.2 hen.2 hacc.2
        (by simpa [Container.stepC, Container.drainMicrotasks] using hst)]
      rfl
    | setConfig ec =>
      rw [hrun, ih (c.stepC (Op.setConfig ec)) hwf.2 hen.2 hacc.2
        (by simpa [Container.stepC] using hst)]
      rfl
    | attachTemplate =>
      rw [hrun, ih (c.stepC Op.attachTemplate) hwf.2 hen.2 hacc.2
        (by simpa [Container.stepC, Container.attachTemplatePortal] using hst)]
      rfl
    | attach p =>
      rcases attachComponentPortal_frame c p with ⟨h1, h2, _, _, _⟩
      rw [hrun, ih (c.stepC (Op.attach p)) hwf.2 hen.2 hacc.2
        (by rw [Container.stepC, h1]; exact hst), Container.stepC, h2]
    | animationEnd f s d =>
      have hguard : s = c.animationState ∨ s = KeyboardState.void :=
        of_decide_eq_true hwf.1
      have hsnv : s ≠ KeyboardState.visible := by
        rcases hguard with h | h
        · rw [h]; exact hst
        · rw [h]; decide
      have honE : (c.stepC (Op.animationEnd f s d)).onEnter = c.onEnter := by
        cases s with
        | visible => exact absurd rfl hsnv
        | initial => simp [Container.stepC, Container.onAnimationEnd]
        | complete =>
          simp [Container.stepC, Container.onAnimationEnd, Container.completeExit]
        | void =>
          simp [Container.stepC, Container.onAnimationEnd, Container.completeExit]
      have hstate : (c.stepC (Op.animationEnd f s d)).animationState =
          c.animationState := onAnimationEnd_state c f s d
      rw [hrun, ih (c.stepC (Op.animationEnd f s d)) hwf.2 hen.2 hacc.2
        (by rw [hstate]; exact hst), honE]

/-- An attach call reports already attached exactly when the portal host
has content. -/
theorem attach_alreadyAttached_iff (c : Container) (p : Nat) :
    (c.attachComponentPortal p).1 = AttachOutcome.alreadyAttached ↔
      c.portalHost.hasAttached = true := by
  unfold Container.attachComponentPortal
  cases ha : c.portalHost.hasAttached with
  | true => simp [ha]
  | false =>
    cases hc : c.keyboardConfig with
    | none => simp [ha, hc]
    | some cfg =>
      cases hec : cfg.extraClasses with
      | none => simp [ha, hc, hec]
      | some classes => simp [ha, hc, hec]

/-- A successful attach records the portal in the portal host. -/
theorem attach_ok_attached (c : Container) (p : Nat)
    (h : (c.attachComponentPortal p).1.isOk = true) :
    ((c.attachComponentPortal p).2).portalHost.attached = some p := by
  unfold Container.attachComponentPortal at h ⊢
  cases ha : c.portalHost.hasAttached with
  | true => simp [ha, AttachOutcome.isOk] at h
  | false =>
    cases hc : c.keyboardConfig with
    | none => simp [ha, hc, AttachOutcome.isOk] at h
    | some cfg =>
      cases hec : cfg.extraClasses with
      | none => simp [ha, hc, hec]
      | some classes => simp [ha, hc, hec]

/-- An attach call on a host that already has content throws and leaves
the whole state untouched. -/
theorem attach_throws_on_attached (c : Container)
    (h : c.portalHost.hasAttached = true) (p : Nat) :
    c.attachComponentPortal p = (AttachOutcome.alreadyAttached, c) := by
  unfold Container.attachComponentPortal
  simp [h]

/-- No operation other than a successful attach changes the portal host. -/
theorem stepC_portalHost (c : Container) (op : Op) :
    (c.stepC op).portalHost = c.portalHost ∨ ∃ p, op = Op.attach p := by
  cases op with
  | attach p => exact Or.inr ⟨p, rfl⟩
  | animationEnd f t d =>
    refine Or.inl ?_
    cases t <;> simp [Container.stepC, Container.onAnimationEnd,
      Container.completeExit]
  | enter => exact Or.inl rfl
  | onEnterAcc => exact Or.inl rfl
  | exit => exact Or.inl rfl
  | subscribeEnter => exact Or.inl rfl
  | destroy => exact Or.inl rfl
  | drain => exact Or.inl rfl
  | setConfig ec => exact Or.inl rfl
  | attachTemplate => exact Or.inl rfl

/-- Once the portal host has content it keeps it through every operation,
and while it has content no attach succeeds: along any trace the number of
successful attach calls is at most one. -/
theorem countAttachSuccesses_bound (t : List Op) :
    ∀ c : Container,
      countAttachSuccesses c t ≤ 1 ∧
      (c.portalHost.attached.isSome = true → countAttachSuccesses c t = 0) := by
  induction t with
  | nil => intro c; exact ⟨Nat.zero_le 1, fun _ => rfl⟩
  | cons op rest ih =>
    intro c
    cases op with
    | attach p =>
      have hshape : countAttachSuccesses c (Op.attach p :: rest) =
          (if (c.attachComponentPortal p).1.isOk then 1 else 0) +
            countAttachSuccesses (c.stepC (Op.attach p)) rest := rfl
      cases hAtt : c.portalHost.attached with
      | some a =>
        have hOut : c.attachComponentPortal p =
            (AttachOutcome.alreadyAttached, c) :=
          attach_throws_on_attached c (by simp [PortalHost.hasAttached, hAtt]) p
        have hstep : c.stepC (Op.attach p) = c := by
          show (c.attachComponentPortal p).2 = c
          rw [hOut]
        have hzero : countAttachSuccesses c rest = 0 :=
          (ih c).2 (by simp [hAtt])
        rw [hshape, hstep, hOut]
        simp [AttachOutcome.isOk, hzero]
      | none =>
        constructor
        · cases hOk : (c.attachComponentPortal p).1.isOk with
          | false =>
            rw [hshape, hOk]
            simpa using (ih _).1
          | true =>
            have hSome : ((c.attachComponentPortal p).2).portalHost.attached =
                some p := attach_ok_attached c p hOk
            have hzero : countAttachSuccesses (c.stepC (Op.attach p)) rest = 0 :=
              (ih _).2 (by show ((c.attachComponentPortal p).2).portalHost.attached.isSome = true; simp [hSome])
            rw [hshape, hOk, hzero]
            simp
        · intro h
          simp [hAtt] at h
    | enter =>
      exact ⟨(ih _).1, fun h => (ih _).2 h⟩
    | onEnterAcc =>
      exact ⟨(ih _).1, fun h => (ih _).2 h⟩
    | exit =>
      exact ⟨(ih _).1, fun h => (ih _).2 h⟩
    | subscribeEnter =>
      exact ⟨(ih _).1, fun h => (ih _).2 h⟩
    | destroy =>
      exact ⟨(ih _).1, fun h => (ih _).2 h⟩
    | drain =>
      exact ⟨(ih _).1, fun h => (ih _).2 h⟩
    | setConfig ec =>
      exact ⟨(ih _).1, fun h => (ih _).2 h⟩
    | attachTemplate =>
      exact ⟨(ih _).1, fun h => (ih _).2 h⟩
    | animationEnd f s d =>
      have hshape : countAttachSuccesses c (Op.animationEnd f s d :: rest) =
          countAttachSuccesses (c.stepC (Op.animationEnd f s d)) rest := rfl
      have hph : (c.stepC (Op.animationEnd f s d)).portalHost = c.portalHost := by
        rcases stepC_portalHost c (Op.animationEnd f s d) with h | ⟨p, hp⟩
        · exact h
        · cases hp
      rw [hshape]
      refine ⟨(ih _).1, fun h => (ih _).2 ?_⟩
      rw [hph]
      exact h

/-- Firing at least one round stops the subject. -/
theorem Subject.fireTimes_succ_stopped (s : Subject) (k : Nat) :
    (s.fireTimes (k + 1)).stopped = true := by
  cases hs : s.stopped with
  | true => rw [Subject.fireTimes_of_stopped s hs]; exact hs
  | false => exact (Subject.fireTimes_of_live s hs k).2

/-- The animation end handler never writes the onExit subject directly. -/
theorem onAnimationEnd_onExit (c : Container) (f s : KeyboardState) (d : Bool) :
    (c.onAnimationEnd f s d).onExit = c.onExit := by
  cases s <;> simp [Container.onAnimationEnd, Container.completeExit]

/-- Running a trace and then one more operation. -/
theorem runOps_append_single (t : List Op) (op : Op) :
    runOps (t ++ [op]) = (runOps t).stepC op := by
  simp [runOps, runFrom, List.foldl_append]

/-- C1: for every host instance and every trace of operations, the exited
signal fires exactly once per lifetime: it never fires more than once, it
fires exactly when a _completeExit trigger (an exit-completion report into
complete or void, or a destroy) is followed by a microtask-queue drain, and
in particular it fires in each of the three scenarios: exit plus a
completion report, destroy without exit, and exit plus destroy without any
completion report, each followed by the queue draining. -/
theorem C1_exited_fires_exactly_once :
    ∀ t : List Op,
      (runOps t).onExit.nextCount ≤ 1 ∧
      ((runOps t).onExit.nextCount = 1 ↔ exitFires t = true) ∧
      (runOps [Op.exit, Op.animationEnd KeyboardState.visible
        KeyboardState.complete true, Op.drain]).onExit.nextCount = 1 ∧
      (runOps [Op.destroy, Op.drain]).onExit.nextCount = 1 ∧
      (runOps [Op.exit, Op.destroy, Op.drain]).onExit.nextCount = 1 := by
  intro t
  refine ⟨(runFrom_SInv_exit t initContainer SInv_fresh).1, ?_,
    by decide, by decide, by decide⟩
  have hchar := runFrom_exit_count t initContainer SInv_fresh
  simpa [initContainer] using hchar

/-- Witness for C1 at the concrete trace destroy-then-drain. -/
theorem C1_witness :
    (runOps [Op.destroy, Op.drain]).onExit.nextCount = 1 :=
  (C1_exited_fires_exactly_once [Op.destroy, Op.drain]).2.1.mpr (by decide)

/-- C6: destroying the host twice is safe: on any trace with two destroy
calls and the task queue draining afterwards, whatever else happens in
between, the exited signal has fired exactly once, and the second destroy
adds no second firing. -/
theorem C6_destroy_twice_safe :
    ∀ t1 t2 t3 : List Op,
      (runOps (t1 ++ Op.destroy :: (t2 ++ Op.destroy :: (t3 ++ [Op.drain])))).onExit.nextCount = 1 := by
  intro t1 t2 t3
  have hchar := runFrom_exit_count
    (t1 ++ Op.destroy :: (t2 ++ Op.destroy :: (t3 ++ [Op.drain])))
    initContainer SInv_fresh
  apply hchar.mpr
  refine Or.inr (Or.inr ?_)
  apply exitFires_of_split
  · rfl
  · simp [hasOp_append, hasOp, isDrain]

/-- Witness for C6 at the empty surrounding traces. -/
theorem C6_witness :
    (runOps ([] ++ Op.destroy :: ([] ++ Op.destroy :: ([] ++ [Op.drain])))).onExit.nextCount = 1 :=
  C6_destroy_twice_safe [] [] []

/-- An attach on an empty host with keyboardConfig assigned succeeds and
returns the materialized ref. -/
theorem attach_ok_of_ready (c : Container) (p : Nat)
    (h1 : c.portalHost.attached = none) (cfg : MdKeyboardConfig)
    (h2 : c.keyboardConfig = some cfg) :
    (c.attachComponentPortal p).1 = AttachOutcome.ok p := by
  unfold Container.attachComponentPortal
  cases hec : cfg.extraClasses with
  | none => simp [PortalHost.hasAttached, h1, h2, hec]
  | some classes => simp [PortalHost.hasAttached, h1, h2, hec]

/-- A container whose portal host already has content, for witnesses. -/
def attachedContainer : Container :=
  { initContainer with
    portalHost := { attached := some 3 }
    keyboardConfig := some { extraClasses := none } }

/-- A container with keyboardConfig assigned and nothing attached, for
witnesses. -/
def readyContainer : Container :=
  { initContainer with
    keyboardConfig := some { extraClasses := some ["kb-dark-theme"] } }

/-- C2: attach throws MdKeyboardContentAlreadyAttached exactly when the
portal host already has attached content, and along any trace of
operations from a fresh host at most one attach call succeeds. -/
theorem C2_attach_at_most_once :
    ∀ (c : Container) (p : Nat) (t : List Op),
      ((c.attachComponentPortal p).1 = AttachOutcome.alreadyAttached ↔
        c.portalHost.hasAttached = true) ∧
      countAttachSuccesses initContainer t ≤ 1 := by
  intro c p t
  exact ⟨attach_alreadyAttached_iff c p,
    (countAttachSuccesses_bound t initContainer).1⟩

/-- Witness for C2: the error fires on an attached host, and a trace with
two attach calls yields one success. -/
theorem C2_witness :
    (attachedContainer.attachComponentPortal 5).1 =
      AttachOutcome.alreadyAttached ∧
    countAttachSuccesses initContainer
      [Op.setConfig none, Op.attach 7, Op.attach 8] ≤ 1 :=
  ⟨(C2_attach_at_most_once attachedContainer 5 []).1.mpr (by decide),
    (C2_attach_at_most_once attachedContainer 5
      [Op.setConfig none, Op.attach 7, Op.attach 8]).2⟩

/-- C7: after attach of X succeeds, attach of Y throws
MdKeyboardContentAlreadyAttached before any side effect: X stays attached,
no extra class is applied during the failing call, and the whole state is
unchanged by it. -/
theorem C7_attach_failure_atomic :
    ∀ (c : Container) (x y : Nat),
      c.portalHost.attached = none →
      (∀ cfg : MdKeyboardConfig, c.keyboardConfig = some cfg →
        (c.attachComponentPortal x).1 = AttachOutcome.ok x ∧
        ((c.attachComponentPortal x).2).portalHost.attached = some x ∧
        (((c.attachComponentPortal x).2).attachComponentPortal y).1 =
          AttachOutcome.alreadyAttached ∧
        (((c.attachComponentPortal x).2).attachComponentPortal y).2 =
          (c.attachComponentPortal x).2 ∧
        ((((c.attachComponentPortal x).2).attachComponentPortal y).2).hostClasses =
          ((c.attachComponentPortal x).2).hostClasses) := by
  intro c x y h1 cfg h2
  have hOk : (c.attachComponentPortal x).1 = AttachOutcome.ok x :=
    attach_ok_of_ready c x h1 cfg h2
  have hSome : ((c.attachComponentPortal x).2).portalHost.attached = some x :=
    attach_ok_attached c x (by rw [hOk]; rfl)
  have hThrow := attach_throws_on_attached ((c.attachComponentPortal x).2)
    (by simp [PortalHost.hasAttached, hSome]) y
  refine ⟨hOk, hSome, ?_, ?_, ?_⟩
  · rw [hThrow]
  · rw [hThrow]
  · rw [hThrow]

/-- Witness for C7 on a ready container and portals 0 and 1. -/
theorem C7_witness :
    ((readyContainer.attachComponentPortal 0).1 = AttachOutcome.ok 0) ∧
    (((readyContainer.attachComponentPortal 0).2).attachComponentPortal 1).1 =
      AttachOutcome.alreadyAttached :=
  ⟨(C7_attach_failure_atomic readyContainer 0 1 rfl
      { extraClasses := some ["kb-dark-theme"] } rfl).1,
    (C7_attach_failure_atomic readyContainer 0 1 rfl
      { extraClasses := some ["kb-dark-theme"] } rfl).2.2.1⟩

/-- C10: attach dereferences the public keyboardConfig field before
delegating: on an empty host with keyboardConfig unset it faults with a
TypeError, which is neither of the two specified errors; with
keyboardConfig assigned it succeeds, and an absent or empty extraClasses
array adds no class to the host element. -/
theorem C10_attach_reads_config :
    ∀ (c : Container) (p : Nat),
      (c.portalHost.attached = none → c.keyboardConfig = none →
        c.attachComponentPortal p = (AttachOutcome.configFault, c)) ∧
      (∀ cfg : MdKeyboardConfig, c.portalHost.attached = none →
        c.keyboardConfig = some cfg →
        (c.attachComponentPortal p).1 = AttachOutcome.ok p) ∧
      (c.portalHost.attached = none →
        (c.keyboardConfig = some { extraClasses := none } ∨
          c.keyboardConfig = some { extraClasses := some [] }) →
        (c.attachComponentPortal p).1 = AttachOutcome.ok p ∧
        ((c.attachComponentPortal p).2).hostClasses = c.hostClasses) ∧
      (AttachOutcome.configFault ≠ AttachOutcome.alreadyAttached ∧
        AttachOutcome.configFault ≠ AttachOutcome.notImplemented) := by
  intro c p
  refine ⟨?_, ?_, ?_, by decide, by decide⟩
  · intro h1 h2
    unfold Container.attachComponentPortal
    simp [PortalHost.hasAttached, h1, h2]
  · intro cfg h1 h2
    exact attach_ok_of_ready c p h1 cfg h2
  · intro h1 h2
    rcases h2 with h2 | h2
    · constructor
      · exact attach_ok_of_ready c p h1 _ h2
      · unfold Container.attachComponentPortal
        simp [PortalHost.hasAttached, h1, h2]
    · constructor
      · exact attach_ok_of_ready c p h1 _ h2
      · unfold Container.attachComponentPortal
        simp [PortalHost.hasAttached, h1, h2]

/-- Witness for C10: the fresh container has no config and attach faults;
a configured empty-extraClasses container succeeds without class changes. -/
theorem C10_witness :
    initContainer.attachComponentPortal 5 =
      (AttachOutcome.configFault, initContainer) :=
  (C10_attach_reads_config initContainer 5).1 rfl rfl

/-- C3: the entered signal is fire-once with late-subscriber delivery: on
every trace every subscriber has received at most one notification; before
the signal fires subscribers have received none; once it has fired every
subscriber, early or late, has received exactly one, and a subscriber
added after the firing is notified immediately. -/
theorem C3_entered_fire_once :
    ∀ t : List Op,
      (∀ k ∈ (runOps t).enterSubs, k ≤ 1) ∧
      ((runOps t).onEnter.stopped = false →
        ∀ k ∈ (runOps t).enterSubs, k = 0) ∧
      ((runOps t).onEnter.stopped = true →
        ∀ k ∈ (runOps t).enterSubs, k = 1) ∧
      ((runOps t).onEnter.stopped = true →
        ∀ k ∈ (runOps (t ++ [Op.subscribeEnter])).enterSubs, k = 1) := by
  intro t
  have hInv : EnterInv (runOps t) :=
    runFrom_EnterInv t initContainer EnterInv_init
  have hInv2 : EnterInv (runOps (t ++ [Op.subscribeEnter])) :=
    runFrom_EnterInv (t ++ [Op.subscribeEnter]) initContainer EnterInv_init
  refine ⟨?_, ?_, ?_, ?_⟩
  · intro k hk
    have := hInv.2 k hk
    split at this <;> omega
  · intro hstop k hk
    have := hInv.2 k hk
    rwa [if_neg (by simp [hstop])] at this
  · intro hstop k hk
    have := hInv.2 k hk
    rwa [if_pos hstop] at this
  · intro hstop k hk
    have hsame : (runOps (t ++ [Op.subscribeEnter])).onEnter =
        (runOps t).onEnter := by
      rw [runOps_append_single]
      rfl
    have := hInv2.2 k hk
    rwa [hsame, if_pos hstop] at this

/-- Witness for C3 on the trace enter, engine reports visible, late
subscription: the late subscriber was notified exactly once. -/
theorem C3_witness : (1 : Nat) = 1 :=
  (C3_entered_fire_once
      [Op.enter, Op.animationEnd KeyboardState.initial KeyboardState.visible true,
        Op.subscribeEnter]).2.2.1
    (by decide) 1 (by decide)

/-- C8: enter is idempotent: when the state is already visible, calling
enter changes nothing at all (in particular the state value stays visible
and no signal is touched), and across any trace the entered signal fires
at most once however many enter calls it holds. -/
theorem C8_enter_idempotent :
    ∀ (c : Container) (t : List Op),
      (c.animationState = KeyboardState.visible → c.stepC Op.enter = c) ∧
      (c.stepC Op.enter).animationState = KeyboardState.visible ∧
      (runOps t).onEnter.nextCount ≤ 1 := by
  intro c t
  refine ⟨?_, rfl, (runFrom_EnterInv t initContainer EnterInv_init).1.1⟩
  intro h
  cases c
  simp only [Container.stepC, Container.enter]
  simp_all

/-- A container whose animation state is already visible, for witnesses. -/
def visibleContainer : Container :=
  { initContainer with animationState := KeyboardState.visible }

/-- Witness for C8: a second enter on a visible container is a no-op. -/
theorem C8_witness : visibleContainer.stepC Op.enter = visibleContainer :=
  (C8_enter_idempotent visibleContainer []).1 rfl

/-- C4: dispatch of an animation completion event: a transition into
complete or void schedules the exit finalization (the only state change is
one more pending completion, and the exited signal is complete once the
queue drains); a transition into visible finalizes the entered signal,
idempotently (on an already finalized signal the event changes nothing);
a transition into initial, the only other state, changes nothing; an
already finalized exited signal never re-emits; and the didFinish flag of
the event plays no role. -/
theorem C4_animation_dispatch :
    ∀ (c : Container) (f s : KeyboardState) (d e : Bool),
      (c.onAnimationEnd f s d = c.onAnimationEnd f s e) ∧
      ((s = KeyboardState.complete ∨ s = KeyboardState.void) →
        c.onAnimationEnd f s d =
          { c with pendingExits := c.pendingExits + 1 } ∧
        ((c.onAnimationEnd f s d).drainMicrotasks).onExit.stopped = true) ∧
      (s = KeyboardState.visible →
        (c.onAnimationEnd f s d).onEnter.stopped = true ∧
        (c.onEnter.stopped = true → c.onAnimationEnd f s d = c)) ∧
      (s = KeyboardState.initial → c.onAnimationEnd f s d = c) ∧
      (c.onExit.stopped = true →
        ((c.onAnimationEnd f s d).drainMicrotasks).onExit.nextCount =
          c.onExit.nextCount) := by
  intro c f s d e
  refine ⟨by cases s <;> rfl, ?_, ?_, ?_, ?_⟩
  · rintro (rfl | rfl)
    · refine ⟨by simp [Container.onAnimationEnd, Container.completeExit], ?_⟩
      have hstep : c.onAnimationEnd f KeyboardState.complete d =
          { c with pendingExits := c.pendingExits + 1 } := by
        simp [Container.onAnimationEnd, Container.completeExit]
      rw [hstep]
      exact Subject.fireTimes_succ_stopped c.onExit c.pendingExits
    · refine ⟨by simp [Container.onAnimationEnd, Container.completeExit], ?_⟩
      have hstep : c.onAnimationEnd f KeyboardState.void d =
          { c with pendingExits := c.pendingExits + 1 } := by
        simp [Container.onAnimationEnd, Container.completeExit]
      rw [hstep]
      exact Subject.fireTimes_succ_stopped c.onExit c.pendingExits
  · rintro rfl
    constructor
    · simp [Container.onAnimationEnd, Subject.complete]
    · intro hstop
      have hsubj : c.onEnter.next.complete = c.onEnter := by
        rw [Subject.next_of_stopped _ hstop, Subject.complete_of_stopped _ hstop]
      simp [Container.onAnimationEnd, hstop, hsubj]
  · rintro rfl
    simp [Container.onAnimationEnd]
  · intro hstop
    have hox : (c.onAnimationEnd f s d).onExit = c.onExit :=
      onAnimationEnd_onExit c f s d
    show ((c.onAnimationEnd f s d).onExit.fireTimes
      (c.onAnimationEnd f s d).pendingExits).nextCount = c.onExit.nextCount
    rw [hox, Subject.fireTimes_of_stopped _ hstop]

/-- Witness for C4: on a container with both signals already finalized,
a repeated completion report into complete changes no observable count. -/
theorem C4_witness :
    initContainer.onAnimationEnd KeyboardState.visible KeyboardState.initial
      true = initContainer :=
  (C4_animation_dispatch initContainer KeyboardState.visible
    KeyboardState.initial true true).2.2.2.1 rfl

/-- C9: the accessor _onEnter is not a pure observer: every call sets the
animation state to visible, exactly the state change enter performs, and
modifies no other field, so fetching the entered observable through it
requests the entrance transition even when enter was never called. -/
theorem C9_onEnter_accessor_impure :
    ∀ c : Container,
      c.onEnterMethod = { c with animationState := KeyboardState.visible } ∧
      c.onEnterMethod = c.enter ∧
      (initContainer.onEnterMethod).animationState = KeyboardState.visible := by
  intro c
  exact ⟨rfl, rfl, rfl⟩

/-- The trace refuting C5 as stated: the caller only fetches the entered
observable through _onEnter, never calling enter, and the engine then
reports the resulting transition into visible. -/
def c5BadTrace : List Op :=
  [Op.onEnterAcc,
    Op.animationEnd KeyboardState.initial KeyboardState.visible true]

/-- Counterexample to C5 as stated: a well-formed trace that contains no
enter call on which the entered signal nevertheless fires, because the
accessor _onEnter also requests the visible transition. -/
theorem C5_counterexample :
    wfFrom initContainer c5BadTrace = true ∧
    hasOp isEnterOp c5BadTrace = false ∧
    (runOps c5BadTrace).onEnter.nextCount = 1 := by
  decide

/-- C5 amended: on every well-formed trace the entered signal fires only
if enter or the accessor _onEnter has been called at least once (with
neither, it never fires), whereas the exited signal can fire on a trace
without any exit call: destruction alone suffices. -/
theorem C5_amended_entered_needs_request :
    ∀ t : List Op,
      (wfFrom initContainer t = true → hasOp isEnterOp t = false →
        hasOp isOnEnterAccOp t = false →
        (runOps t).onEnter.nextCount = 0) ∧
      ((runOps [Op.destroy, Op.drain]).onExit.nextCount = 1 ∧
        hasOp isExitOp [Op.destroy, Op.drain] = false) := by
  intro t
  refine ⟨?_, by decide, by decide⟩
  intro hwf hen hacc
  have hframe := noEnter_onEnter_frame t initContainer hwf hen hacc (by decide)
  show (runFrom initContainer t).onEnter.nextCount = 0
  rw [hframe]
  rfl

/-- Witness for C5 amended: a well-formed trace with an exit and a
completion report but no enter request leaves the entered signal silent. -/
theorem C5_witness :
    (runOps [Op.exit,
      Op.animationEnd KeyboardState.visible KeyboardState.complete true,
      Op.drain]).onEnter.nextCount = 0 :=
  (C5_amended_entered_needs_request [Op.exit,
      Op.animationEnd KeyboardState.visible KeyboardState.complete true,
      Op.drain]).1 (by decide) (by decide) (by decide)
